import Mathlib

/-
Verification development for the Obsidian auto-tagging script (src/main.py).
The functional core is embedded shallowly: note contents are lists of
characters, the tag pipeline (extract, merge, rewrite) is translated
function by function, the per-file processing loop is a recursive function
over an explicit backend oracle, and fallible steps (file reads, the
directory walk, the statistics report) return Except/Option values.
-/

namespace ObsidianAutoTag

/-- Whitespace test matching the character class used both by the regex
token in the Tags-line pattern and by Python's default strip. -/
def pyIsSpace (c : Char) : Bool :=
  c == ' ' || c == '\t' || c == '\n' || c == '\r' ||
  c == Char.ofNat 11 || c == Char.ofNat 12

/-- Python str.strip with no argument: remove leading and trailing
whitespace. -/
def pyStrip (s : List Char) : List Char :=
  ((s.dropWhile pyIsSpace).reverse.dropWhile pyIsSpace).reverse

/-- Python str.split on the single character delimiter, keeping empty
pieces, as in group(1).split in extract_existing_tags. -/
def splitOnHash : List Char → List (List Char)
  | [] => [[]]
  | c :: rest =>
    if c = '#' then [] :: splitOnHash rest
    else
      match splitOnHash rest with
      | [] => [[c]]
      | piece :: pieces => (c :: piece) :: pieces

/-- Scan for the first occurrence of the marker (a newline followed by the
five characters of the tag-line keyword and a colon), the leftmost start of
a match of the Tags-line pattern; returns the text after the marker. From
any such occurrence the full pattern always matches, because the greedy
whitespace token and the lazy line capture always reach an end of line, so
the leftmost marker occurrence is exactly the leftmost regex match. -/
def findTagsRest : List Char → Option (List Char)
  | [] => none
  | c :: rest =>
    if c = '\n' ∧ rest.take 5 = ['T', 'a', 'g', 's', ':'] then some (rest.drop 5)
    else findTagsRest rest

/-- Captured group of the Tags-line pattern, taken from the text after the
marker: the greedy whitespace token consumes the maximal whitespace run
(including newlines), then the capture extends to the next end of line. -/
def tagsGroup (rest : List Char) : List Char :=
  (rest.dropWhile pyIsSpace).takeWhile (fun c => !(c == '\n'))

/-- Embedding of extract_existing_tags (src/main.py lines 237 to 244):
search for the Tags-line pattern, split the captured group on the hash
delimiter, strip each piece, and keep the non-empty stripped pieces. The
pieces are returned as stripped, with no hash prefix added. -/
def extract_existing_tags (content : List Char) : List (List Char) :=
  match findTagsRest content with
  | none => []
  | some rest =>
    ((splitOnHash (tagsGroup rest)).map pyStrip).filter (fun t => !(t.isEmpty))

/-- Per-tag correction step of the merge (src/main.py lines 66 to 69): a
tag that does not already start with a hash is stripped and prefixed with
one; a tag that does start with a hash is kept verbatim. -/
def canonTag (t : List Char) : List Char :=
  if t.take 1 = ['#'] then t else '#' :: pyStrip t

/-- Embedding of the merge step inline in process_file (src/main.py lines
62 to 71): append the suggested tags that are not members of the existing
list (membership by plain string equality on the as-given tags), then
apply the per-tag correction, then truncate to the first ten. -/
def mergeTags (existing suggested : List (List Char)) : List (List Char) :=
  let all_tags := existing ++ suggested.filter (fun t => !(existing.contains t))
  let corrected_tags := all_tags.map canonTag
  corrected_tags.take 10

/-- Python str.join with a single space separator (src/main.py line 72). -/
def joinSpace : List (List Char) → List Char
  | [] => []
  | [t] => t
  | t :: ts => t ++ ' ' :: joinSpace ts

/-- Remainder of the content after one full match of the Tags-line pattern,
starting from the text that follows the matched newline: five keyword
characters, then the maximal whitespace run, then the captured line; what
follows (the terminating newline onward, or nothing at end of input) is
where substitution scanning resumes. -/
def afterTagsMatch (rest : List Char) : List Char :=
  ((rest.drop 5).dropWhile pyIsSpace).dropWhile (fun c => !(c == '\n'))

theorem length_dropWhile_le_self (p : Char → Bool) :
    ∀ l : List Char, (l.dropWhile p).length ≤ l.length
  | [] => Nat.le_refl _
  | c :: rest => by
    simp only [List.dropWhile]
    cases p c with
    | true =>
      have h := length_dropWhile_le_self p rest
      simp only [List.length_cons]
      omega
    | false => simp

theorem afterTagsMatch_length_le (rest : List Char) :
    (afterTagsMatch rest).length ≤ rest.length := by
  unfold afterTagsMatch
  calc (((rest.drop 5).dropWhile pyIsSpace).dropWhile
          (fun c => !(c == '\n'))).length
      ≤ ((rest.drop 5).dropWhile pyIsSpace).length :=
        length_dropWhile_le_self _ _
    _ ≤ (rest.drop 5).length := length_dropWhile_le_self _ _
    _ ≤ rest.length := by
        rw [List.length_drop]; omega

/-- Embedding of the substitution on src/main.py line 74: every
non-overlapping match of the Tags-line pattern in the content is replaced
by a newline, the keyword, one space and the new tag string. -/
def subAllTags (tag_string : List Char) : List Char → List Char
  | [] => []
  | c :: rest =>
    if c = '\n' ∧ rest.take 5 = ['T', 'a', 'g', 's', ':'] then
      '\n' :: ("Tags: ".toList ++ tag_string ++ subAllTags tag_string (afterTagsMatch rest))
    else c :: subAllTags tag_string rest
termination_by l => l.length
decreasing_by
  · have h := afterTagsMatch_length_le rest
    simp only [List.length_cons]
    omega
  · simp only [List.length_cons]
    omega

/-- Embedding of the rewrite decision (src/main.py lines 73 to 76): if the
Tags-line pattern matches somewhere in the content, substitute the new tag
string into every matching line; otherwise append a fresh tag line at the
end of the content. -/
def rewriteContent (content tag_string : List Char) : List Char :=
  if (findTagsRest content).isSome then subAllTags tag_string content
  else content ++ '\n' :: ("Tags: ".toList ++ tag_string)

/-- Status field of the per-file result dictionaries built in
process_file. -/
inductive St where
  | tags_updated
  | existing_tags
  | failed
deriving DecidableEq

/-- Result dictionary of process_file: a status and the resulting tag
list (the file path entry is the caller's input and is omitted). -/
structure Outcome where
  status : St
  tags : List (List Char)
deriving DecidableEq

/-- The retry loop of process_file (src/main.py lines 54 to 85), with the
backend as an oracle indexed by the number of calls already made. The
arguments after the oracle, the content and the existing tags are the
call index so far and the remaining attempts (retry limit minus retry
count); the result carries the outcome, the content on disk afterwards,
and the total number of backend calls made. -/
def processLoop (backend : Nat → Option (List (List Char)))
    (content : List Char) (existing_tags : List (List Char)) :
    Nat → Nat → Outcome × List Char × Nat
  | k, 0 => ({ status := St.failed, tags := [] }, content, k)
  | k, fuel + 1 =>
    match backend k with
    | none => ({ status := St.failed, tags := [] }, content, k + 1)
    | some [] => ({ status := St.failed, tags := [] }, content, k + 1)
    | some (t :: ts) =>
      if 10 < (t :: ts).length then
        processLoop backend content existing_tags (k + 1) fuel
      else
        let corrected_tags := mergeTags existing_tags (t :: ts)
        let tag_string := joinSpace corrected_tags
        ({ status := St.tags_updated, tags := corrected_tags },
         rewriteContent content tag_string, k + 1)

/-- Embedding of process_file (src/main.py lines 42 to 88) on an already
read content: extract the existing tags; with fewer than nine of them run
the retry loop with the default limit of three; otherwise return the
existing-tags outcome with the content untouched. -/
def process_file (backend : Nat → Option (List (List Char)))
    (content : List Char) : Outcome × List Char × Nat :=
  let existing_tags := extract_existing_tags content
  if existing_tags.length < 9 then processLoop backend content existing_tags 0 3
  else ({ status := St.existing_tags, tags := existing_tags }, content, 0)

/-- File input or output failure raised while handling one note. -/
inductive FileReadWriteFailure where
  | readFailure
  | writeFailure
deriving DecidableEq

/-- Process_file as called on a path whose read may fail: the source wraps
the open and read calls in no try block, so a raised read error leaves
process_file by propagation instead of being converted into an outcome
value. -/
def process_file_from_read
    (readResult : Except FileReadWriteFailure (List Char))
    (backend : Nat → Option (List (List Char))) :
    Except FileReadWriteFailure (Outcome × List Char × Nat) :=
  match readResult with
  | Except.error e => Except.error e
  | Except.ok content => Except.ok (process_file backend content)

/-- Report assembled by print_statistics when it runs to completion. -/
structure RunReport where
  total_files : Nat
  updated_count : Nat
  existing_count : Nat
  failed_count : Nat
  run_time : Rat
  avg_time : Rat
  api_queries : Nat
  total_tokens : Nat
  estimated_cost : Option Rat
deriving DecidableEq

/-- Embedding of print_statistics (src/main.py lines 246 to 275): counts
per status, wall-clock time, and the average time per file computed as
run_time divided by the file count with no guard, so a zero file count
raises a division-by-zero error, modelled as none. The cost estimate is
only produced for the remote backend. -/
def print_statistics (processed_files : List Outcome) (run_time : Rat)
    (use_ollama : Bool) (api_queries total_tokens : Nat) :
    Option RunReport :=
  let total_files := processed_files.length
  let tags_updated :=
    (processed_files.filter (fun f => f.status == St.tags_updated)).length
  let existing_tags :=
    (processed_files.filter (fun f => f.status == St.existing_tags)).length
  let failed :=
    (processed_files.filter (fun f => f.status == St.failed)).length
  if total_files = 0 then none
  else
    some { total_files := total_files
           updated_count := tags_updated
           existing_count := existing_tags
           failed_count := failed
           run_time := run_time
           avg_time := run_time / (total_files : Rat)
           api_queries := api_queries
           total_tokens := total_tokens
           estimated_cost :=
             if use_ollama then none
             else some (((total_tokens : Rat) / 1000) * (8 / 100)) }

/-- A directory tree: files and directories carry their entry names. -/
inductive FSTree where
  | file : List Char → FSTree
  | dir : List Char → List FSTree → FSTree

/-- The fixed directory exclusion list of src/main.py line 33. -/
def excluded_dirs : List (List Char) :=
  ["zTemplates".toList, "cheat-sheets-main".toList, "zz_Attachments".toList,
   "00 Monthly Tasks".toList, "BMO".toList, "zz_Archive".toList]

/-- Directory filter of src/main.py line 33: keep a directory entry when
its name does not start with a dot and is not in the exclusion list. -/
def keepDir (name : List Char) : Bool :=
  !(name.take 1 == ['.']) && !(excluded_dirs.contains name)

/-- File filter of src/main.py line 35: the name ends in the markdown
extension. -/
def isMdFile (name : List Char) : Bool :=
  ['.', 'm', 'd'].isSuffixOf name

/-- Markdown files directly inside a directory listing, in listing
order. -/
def mdFilesHere (children : List FSTree) : List (List Char) :=
  children.filterMap (fun c =>
    match c with
    | FSTree.file n => if isMdFile n then some n else none
    | FSTree.dir _ _ => none)

mutual
/-- Depth-first enumeration of markdown file names below one directory, as
the os.walk loop of src/main.py lines 32 to 38 visits them: the current
listing's markdown files first, then the kept subdirectories in order. -/
def walkDir : FSTree → List (List Char)
  | FSTree.file _ => []
  | FSTree.dir _ children => mdFilesHere children ++ walkChildren children

/-- Recursion of walkDir over the subdirectory entries of one listing,
skipping entries pruned by the exclusion filter. -/
def walkChildren : List FSTree → List (List Char)
  | [] => []
  | FSTree.file _ :: rest => walkChildren rest
  | FSTree.dir n sub :: rest =>
    (if keepDir n then walkDir (FSTree.dir n sub) else []) ++ walkChildren rest
end

/-- Failure vocabulary for the directory walk. -/
inductive WalkError where
  | directoryNotFound
deriving DecidableEq

/-- The walk over an optional root, modelling os.walk as called on
src/main.py line 32 with its default error handler: a nonexistent root
raises nothing and yields no entries at all, and an existing root yields
its markdown files; no error value is ever produced. -/
def os_walk (root : Option FSTree) : Except WalkError (List (List Char)) :=
  match root with
  | none => Except.ok []
  | some t => Except.ok (walkDir t)

/-- Whether the content contains the newline-preceded tag-line marker,
that is, whether the Tags-line pattern matches anywhere in it. -/
def hasTagsMarker (l : List Char) : Bool :=
  (findTagsRest l).isSome

/-- Tag membership test of a merged tag: its first character is a hash and
its second character is not another hash. -/
def startsWithSingleHash (t : List Char) : Bool :=
  t.take 1 == ['#'] && !(t.take 2 == ['#', '#'])

/-- Modelled on the amended merge contract read left to right: walk the
suggested tags in order, appending each one whose raw as-given form is not
a member of the existing list, then normalize every element and truncate
to ten. -/
def merge_spec_raw (existing suggested : List (List Char)) : List (List Char) :=
  ((suggested.foldl
      (fun acc t => if existing.contains t then acc else acc ++ [t]) existing).map
    canonTag).take 10

/-- Nine distinct existing tags as extract_existing_tags yields them,
without hash prefixes. -/
def nineExisting : List (List Char) :=
  ["e1".toList, "e2".toList, "e3".toList, "e4".toList, "e5".toList,
   "e6".toList, "e7".toList, "e8".toList, "e9".toList]

/-- Nine distinct suggested tags in backend form, hash-prefixed. -/
def nineSuggested : List (List Char) :=
  ["#s1".toList, "#s2".toList, "#s3".toList, "#s4".toList, "#s5".toList,
   "#s6".toList, "#s7".toList, "#s8".toList, "#s9".toList]

/-- Eleven hash-prefixed tags, an oversized backend response. -/
def elevenTags : List (List Char) :=
  ["#1".toList, "#2".toList, "#3".toList, "#4".toList, "#5".toList,
   "#6".toList, "#7".toList, "#8".toList, "#9".toList, "#10".toList,
   "#11".toList]

/-- C1 counterexample: on a content whose Tags line holds the tokens
hash-a hash-b hash-c, extract_existing_tags does not return the
hash-prefixed tokens; it returns the bare pieces a, b, c with the hash
delimiter stripped away. -/
theorem extract_reprefix_cex :
    extract_existing_tags ("x\nTags: #a #b #c".toList) ≠
      ["#a".toList, "#b".toList, "#c".toList] ∧
    extract_existing_tags ("x\nTags: #a #b #c".toList) =
      ["a".toList, "b".toList, "c".toList] := by
  decide

/-- C4: print_statistics called on an empty list of processed files
divides the run time by the zero file count, raising a division-by-zero
error (modelled as none) instead of reporting zero files with a guarded
average. -/
theorem print_statistics_zero_files_none (run_time : Rat) (use_ollama : Bool)
    (api_queries total_tokens : Nat) :
    print_statistics [] run_time use_ollama api_queries total_tokens = none :=
  rfl

/-- C5 counterexample: the walk over a nonexistent root does not surface a
directory-not-found error to the caller. -/
theorem os_walk_missing_root_no_error :
    os_walk none ≠ Except.error WalkError.directoryNotFound := by
  intro h
  exact Except.noConfusion h

/-- C5 amended: the walk over a nonexistent root completes silently,
yielding no error and visiting no file at all. -/
theorem os_walk_missing_root_silent :
    os_walk none = Except.ok ([] : List (List Char)) :=
  rfl

/-- C6: a read failure raised while opening a note is not converted into a
failed outcome at the process_file boundary; it propagates out of
process_file unchanged, for any backend. -/
theorem read_error_propagates (backend : Nat → Option (List (List Char))) :
    process_file_from_read (Except.error FileReadWriteFailure.readFailure) backend =
      Except.error FileReadWriteFailure.readFailure :=
  rfl

/-- C3 counterexample: with fewer than nine existing tags and a backend
that returns the empty tag list (zero tags, within the ten-tag bound),
process_file terminates at once in the failed state with the content
unwritten, instead of proceeding to the merge and write steps. -/
theorem empty_suggestion_fails_cex :
    process_file (fun _ => some []) ("hello".toList) =
      ({ status := St.failed, tags := [] }, "hello".toList, 1) := by
  decide

/-- C7 counterexample: the merge step appends a suggested tag that is
already present by canonical-form equality. The existing bare tag a and
the suggested tag hash-a have the same canonical form, yet the suggested
copy is appended, so the merge result repeats the canonical tag twice. -/
theorem merge_canonical_dedup_cex :
    mergeTags ["a".toList] ["#a".toList] = ["#a".toList, "#a".toList] ∧
    canonTag ("a".toList) = canonTag ("#a".toList) := by
  decide

/-- C8 counterexample: a suggested tag that already starts with a hash is
kept verbatim by the merge, so a double-hash token survives into the
merged sequence and that element does not start with a single hash. -/
theorem merge_single_hash_cex :
    (mergeTags [] ["##a".toList]).all startsWithSingleHash = false ∧
    mergeTags [] ["##a".toList] = ["##a".toList] := by
  decide

/-- C2: when a note's content already carries nine or more existing tags
on its Tags line, process_file makes no backend call and no write: the
returned outcome has the existing-tags status carrying the extracted tag
list, and the content is returned byte-for-byte unchanged. -/
theorem process_file_nine_existing_skips
    (backend : Nat → Option (List (List Char))) (content : List Char)
    (h : 9 ≤ (extract_existing_tags content).length) :
    process_file backend content =
      ({ status := St.existing_tags, tags := extract_existing_tags content },
       content, 0) := by
  simp only [process_file]
  rw [if_neg (by omega)]

/-- C2 witness: a concrete note whose Tags line carries nine tags is left
unchanged with the existing-tags outcome. -/
theorem process_file_nine_existing_skips_wit :
    9 ≤ (extract_existing_tags ("t\nTags: #1#2#3#4#5#6#7#8#9".toList)).length ∧
    process_file (fun _ => none) ("t\nTags: #1#2#3#4#5#6#7#8#9".toList) =
      ({ status := St.existing_tags,
         tags := extract_existing_tags ("t\nTags: #1#2#3#4#5#6#7#8#9".toList) },
       "t\nTags: #1#2#3#4#5#6#7#8#9".toList, 0) :=
  ⟨by decide,
   process_file_nine_existing_skips (fun _ => none)
     ("t\nTags: #1#2#3#4#5#6#7#8#9".toList) (by decide)⟩

/-- The marker scan skips any newline-free prefix and lands on the first
explicit marker occurrence, returning the text after the colon. -/
theorem findTagsRest_append_marker (pre r : List Char)
    (h : ∀ c ∈ pre, c ≠ '\n') :
    findTagsRest (pre ++ '\n' :: ('T' :: 'a' :: 'g' :: 's' :: ':' :: r)) =
      some r := by
  induction pre with
  | nil => rfl
  | cons c pre ih =>
    rw [List.cons_append]
    simp only [findTagsRest]
    rw [if_neg]
    · exact ih (fun x hx => h x (List.mem_cons_of_mem c hx))
    · intro hcon
      exact h c (List.mem_cons_self c pre) hcon.1

/-- The line capture over an appended tail stops exactly at the tail when
the head part is newline-free and the tail is empty or starts with a
newline. -/
theorem takeWhile_append_stop (A suf : List Char)
    (hA : ∀ c ∈ A, (!(c == '\n')) = true)
    (hsuf : suf = [] ∨ ∃ s2, suf = '\n' :: s2) :
    (A ++ suf).takeWhile (fun c => !(c == '\n')) = A := by
  induction A with
  | nil =>
    rcases hsuf with h | ⟨s2, h⟩ <;> subst h
    · rfl
    · simp [List.takeWhile]
  | cons c A ih =>
    rw [List.cons_append,
      @List.takeWhile_cons_of_pos _ (fun c => !(c == '\n')) c (A ++ suf)
        (hA c (List.mem_cons_self c A)),
      ih (fun x hx => hA x (List.mem_cons_of_mem c hx))]

/-- The captured group of a Tags line holding the three hash tokens: the
leading space is eaten by the whitespace token and the capture ends at the
line end. -/
theorem tagsGroup_tags_abc (suf : List Char)
    (hsuf : suf = [] ∨ ∃ s2, suf = '\n' :: s2) :
    tagsGroup ((' ' :: "#a #b #c".toList) ++ suf) = "#a #b #c".toList := by
  unfold tagsGroup
  rw [List.cons_append,
    @List.dropWhile_cons_of_pos _ pyIsSpace ' ' ("#a #b #c".toList ++ suf)
      (by decide)]
  have hcons : "#a #b #c".toList ++ suf = '#' :: ("a #b #c".toList ++ suf) := rfl
  rw [hcons,
    @List.dropWhile_cons_of_neg _ pyIsSpace '#' ("a #b #c".toList ++ suf)
      (by decide)]
  exact takeWhile_append_stop ("#a #b #c".toList) suf (by decide) hsuf

/-- C1 amended: for every content holding a Tags line with the tokens
hash-a hash-b hash-c, where the line is reached first by the scan (the
prefix is newline-free) and is a whole line (the suffix is empty or starts
a new line), extract_existing_tags returns the bare trimmed pieces a, b, c
with no hash prefix. -/
theorem extract_tags_line_amended (pre suf : List Char)
    (hpre : ∀ c ∈ pre, c ≠ '\n')
    (hsuf : suf = [] ∨ ∃ s2, suf = '\n' :: s2) :
    extract_existing_tags (pre ++ "\nTags: #a #b #c".toList ++ suf) =
      ["a".toList, "b".toList, "c".toList] := by
  have hassoc : pre ++ "\nTags: #a #b #c".toList ++ suf =
      pre ++ '\n' ::
        ('T' :: 'a' :: 'g' :: 's' :: ':' :: ((' ' :: "#a #b #c".toList) ++ suf)) := by
    rw [List.append_assoc]
    rfl
  rw [hassoc]
  unfold extract_existing_tags
  rw [findTagsRest_append_marker pre _ hpre]
  show ((splitOnHash (tagsGroup ((' ' :: "#a #b #c".toList) ++ suf))).map
      pyStrip).filter (fun t => !(t.isEmpty)) = _
  rw [tagsGroup_tags_abc suf hsuf]
  decide

/-- C1 amended witness: a concrete two-line note with the three tokens on
its Tags line yields the three bare pieces. -/
theorem extract_tags_line_amended_wit :
    extract_existing_tags ("x\nTags: #a #b #c".toList) =
      ["a".toList, "b".toList, "c".toList] := by
  have h := extract_tags_line_amended ("x".toList) [] (by decide) (Or.inl rfl)
  simpa using h

/-- One loop iteration on a nonempty in-bound suggestion merges, rewrites
and returns the updated outcome. -/
theorem processLoop_small (backend : Nat → Option (List (List Char)))
    (content : List Char) (existing : List (List Char)) (k fuel : Nat)
    (t : List Char) (ts : List (List Char))
    (hb : backend k = some (t :: ts)) (hlen : ¬ 10 < (t :: ts).length) :
    processLoop backend content existing k (fuel + 1) =
      ({ status := St.tags_updated, tags := mergeTags existing (t :: ts) },
       rewriteContent content (joinSpace (mergeTags existing (t :: ts))),
       k + 1) := by
  simp only [processLoop]
  rw [hb]
  simp only [if_neg hlen]

/-- One loop iteration on an oversized suggestion retries: the call index
advances and one attempt is used up. -/
theorem processLoop_oversized (backend : Nat → Option (List (List Char)))
    (content : List Char) (existing : List (List Char)) (k fuel : Nat)
    (l : List (List Char)) (hb : backend k = some l) (hl : 10 < l.length) :
    processLoop backend content existing k (fuel + 1) =
      processLoop backend content existing (k + 1) fuel := by
  cases l with
  | nil => simp at hl
  | cons t ts =>
    simp only [processLoop]
    rw [hb]
    simp only [if_pos hl]

/-- One loop iteration on a failed backend call returns the failed outcome
at once with the content untouched. -/
theorem processLoop_none (backend : Nat → Option (List (List Char)))
    (content : List Char) (existing : List (List Char)) (k fuel : Nat)
    (hb : backend k = none) :
    processLoop backend content existing k (fuel + 1) =
      ({ status := St.failed, tags := [] }, content, k + 1) := by
  simp only [processLoop]
  rw [hb]

/-- C3 amended: with fewer than nine existing tags, whenever the first
backend response is a nonempty tag list of length at most ten, processing
proceeds to the merge and write steps and terminates updated after one
call; an empty response instead terminates failed (see the
counterexample). -/
theorem small_nonempty_suggestion_writes
    (backend : Nat → Option (List (List Char))) (content : List Char)
    (t : List Char) (ts : List (List Char))
    (hb : backend 0 = some (t :: ts))
    (hlen : (t :: ts).length ≤ 10)
    (hex : (extract_existing_tags content).length < 9) :
    process_file backend content =
      ({ status := St.tags_updated,
         tags := mergeTags (extract_existing_tags content) (t :: ts) },
       rewriteContent content
         (joinSpace (mergeTags (extract_existing_tags content) (t :: ts))),
       1) := by
  simp only [process_file]
  rw [if_pos hex]
  show processLoop backend content (extract_existing_tags content) 0 (2 + 1) = _
  rw [processLoop_small backend content (extract_existing_tags content) 0 2 t ts
    hb (by omega)]

/-- C3 amended witness: a concrete note with no Tags line and a backend
returning one tag is written with an appended tag line. -/
theorem small_nonempty_suggestion_writes_wit :
    process_file (fun _ => some ["#x".toList]) ("hello".toList) =
      ({ status := St.tags_updated, tags := ["#x".toList] },
       "hello\nTags: #x".toList, 1) := by
  have h := small_nonempty_suggestion_writes (fun _ => some ["#x".toList])
    ("hello".toList) ("#x".toList) [] rfl (by decide) (by decide)
  rw [h]
  decide

/-- The append-if-absent fold over the suggested tags is the filter of the
raw membership test appended to the seed. -/
theorem foldl_append_not_contains (existing : List (List Char)) :
    ∀ (s acc : List (List Char)),
      s.foldl (fun acc t => if existing.contains t then acc else acc ++ [t]) acc =
        acc ++ s.filter (fun t => !(existing.contains t))
  | [], acc => by simp
  | t :: s, acc => by
    rw [List.foldl_cons]
    cases h : existing.contains t with
    | true =>
      rw [if_pos rfl, foldl_append_not_contains existing s acc,
        List.filter_cons_of_neg (by simpa using h)]
    | false =>
      rw [if_neg (by simp), foldl_append_not_contains existing s (acc ++ [t]),
        List.filter_cons_of_pos (by simpa using h), List.append_assoc]
      rfl

/-- C7 amended: the merge step appends to the existing sequence exactly
those suggested tags whose raw as-given form is not a member of the
existing sequence (presence by plain string equality, decided before any
normalization), preserving existing order first and then suggested order,
then normalizes every element and caps the count; in particular the merge
of the hash-a hash-b existing pair with the hash-b hash-c suggestion
yields hash-a hash-b hash-c. -/
theorem merge_raw_dedup_amended (e s : List (List Char)) :
    mergeTags e s = merge_spec_raw e s ∧
    mergeTags ["#a".toList, "#b".toList] ["#b".toList, "#c".toList] =
      ["#a".toList, "#b".toList, "#c".toList] := by
  refine ⟨?_, by decide⟩
  simp only [mergeTags, merge_spec_raw]
  rw [foldl_append_not_contains e s e]

/-- Every corrected tag starts with a hash character. -/
theorem canonTag_take_one (t : List Char) : (canonTag t).take 1 = ['#'] := by
  unfold canonTag
  split
  · assumption
  · rfl

/-- C8 amended: the merged sequence always has length at most ten and
every element starts with a hash (though not always a single one, see the
counterexample); merging nine existing tags with nine suggested tags none
of which is rawly present truncates to exactly ten, keeping the corrected
nine existing tags first plus the corrected first suggested tag. -/
theorem merge_cap_and_hash (e s : List (List Char)) :
    (mergeTags e s).length ≤ 10 ∧
    (∀ t ∈ mergeTags e s, t.take 1 = ['#']) ∧
    (e.length = 9 → s.length = 9 → (∀ t ∈ s, (!(e.contains t)) = true) →
      mergeTags e s = e.map canonTag ++ (s.take 1).map canonTag) := by
  refine ⟨?_, ?_, ?_⟩
  · simp only [mergeTags]
    rw [List.length_take]
    exact min_le_left _ _
  · intro t ht
    simp only [mergeTags] at ht
    have ht2 := List.take_subset 10 _ ht
    obtain ⟨x, _, rfl⟩ := List.mem_map.mp ht2
    exact canonTag_take_one x
  · intro h9 hs9 hdisj
    have hfilter : s.filter (fun t => !(e.contains t)) = s :=
      List.filter_eq_self.mpr hdisj
    simp only [mergeTags]
    rw [hfilter, List.map_append, List.take_append_eq_append_take]
    have hlen : (e.map canonTag).length = 9 := by
      rw [List.length_map]; exact h9
    rw [List.take_of_length_le (by omega), hlen, List.map_take]

/-- C8 witness: nine bare existing tags merged with nine distinct
hash-prefixed suggested tags give exactly the ten-element capped list. -/
theorem merge_cap_and_hash_wit :
    mergeTags nineExisting nineSuggested =
      ["#e1".toList, "#e2".toList, "#e3".toList, "#e4".toList, "#e5".toList,
       "#e6".toList, "#e7".toList, "#e8".toList, "#e9".toList,
       "#s1".toList] := by
  have h := (merge_cap_and_hash nineExisting nineSuggested).2.2
    (by decide) (by decide) (by decide)
  rw [h]
  decide

/-- C9: with fewer than nine existing tags, a backend whose first three
responses are all oversized (more than ten tags) drives process_file to
the failed outcome after exactly three backend calls with the content
untouched, while a backend whose first call fails outright yields the
failed outcome after exactly one call, with no retry. -/
theorem oversized_retry_bound (content : List Char)
    (bOver bFail : Nat → Option (List (List Char)))
    (hex : (extract_existing_tags content).length < 9)
    (h0 : ∃ l, bOver 0 = some l ∧ 10 < l.length)
    (h1 : ∃ l, bOver 1 = some l ∧ 10 < l.length)
    (h2 : ∃ l, bOver 2 = some l ∧ 10 < l.length)
    (hfail : bFail 0 = none) :
    process_file bOver content =
      ({ status := St.failed, tags := [] }, content, 3) ∧
    process_file bFail content =
      ({ status := St.failed, tags := [] }, content, 1) := by
  obtain ⟨l0, hb0, hl0⟩ := h0
  obtain ⟨l1, hb1, hl1⟩ := h1
  obtain ⟨l2, hb2, hl2⟩ := h2
  constructor
  · simp only [process_file]
    rw [if_pos hex]
    show processLoop bOver content (extract_existing_tags content) 0 (2 + 1) = _
    rw [processLoop_oversized bOver content _ 0 2 l0 hb0 hl0]
    show processLoop bOver content (extract_existing_tags content) 1 (1 + 1) = _
    rw [processLoop_oversized bOver content _ 1 1 l1 hb1 hl1]
    show processLoop bOver content (extract_existing_tags content) 2 (0 + 1) = _
    rw [processLoop_oversized bOver content _ 2 0 l2 hb2 hl2]
    rfl
  · simp only [process_file]
    rw [if_pos hex]
    show processLoop bFail content (extract_existing_tags content) 0 (2 + 1) = _
    rw [processLoop_none bFail content _ 0 2 hfail]

/-- C9 witness: a backend constantly answering eleven tags fails after
three calls and a backend constantly failing fails after one, both leaving
the concrete content alone. -/
theorem oversized_retry_bound_wit :
    process_file (fun _ => some elevenTags) ("hello".toList) =
      ({ status := St.failed, tags := [] }, "hello".toList, 3) ∧
    process_file (fun _ => none) ("hello".toList) =
      ({ status := St.failed, tags := [] }, "hello".toList, 1) :=
  oversized_retry_bound ("hello".toList) (fun _ => some elevenTags)
    (fun _ => none) (by decide) ⟨elevenTags, rfl, by decide⟩
    ⟨elevenTags, rfl, by decide⟩ ⟨elevenTags, rfl, by decide⟩ rfl

/-- C10: on a content whose tag line is the very first line, so that the
marker occurs nowhere preceded by a newline, extract_existing_tags finds
nothing and returns the empty sequence, and the rewrite appends a second
tag line at the end of the content instead of replacing the first-line one
in place. -/
theorem first_line_tags_not_found (rest0 tag_string : List Char)
    (hnomark : hasTagsMarker ("Tags:".toList ++ rest0) = false) :
    extract_existing_tags ("Tags:".toList ++ rest0) = [] ∧
    rewriteContent ("Tags:".toList ++ rest0) tag_string =
      ("Tags:".toList ++ rest0) ++ '\n' :: ("Tags: ".toList ++ tag_string) := by
  have hnone : findTagsRest ("Tags:".toList ++ rest0) = none := by
    unfold hasTagsMarker at hnomark
    cases h : findTagsRest ("Tags:".toList ++ rest0) with
    | none => rfl
    | some r => rw [h] at hnomark; simp at hnomark
  constructor
  · unfold extract_existing_tags
    rw [hnone]
  · unfold rewriteContent
    rw [hnone]
    rfl

/-- C10 witness: a concrete note starting with a first-line tag line keeps
it ignored and gains a second, appended tag line. -/
theorem first_line_tags_not_found_wit :
    extract_existing_tags ("Tags: #x\nbody".toList) = [] ∧
    rewriteContent ("Tags: #x\nbody".toList) ("#m".toList) =
      "Tags: #x\nbody\nTags: #m".toList := by
  have h := first_line_tags_not_found (" #x\nbody".toList) ("#m".toList)
    (by decide)
  exact h

end ObsidianAutoTag
